import Mathlib

/-!
Verification development for the simple-jit front end (scanner, tokens,
scopes, AST and recursive-descent parser).  Every definition below is a
shallow embedding of the corresponding C++ entity in `src/`; mutable state
(parser cursor, status slot, scope chain) is passed explicitly, machine
pointers that may be null become `Option`, and `assert` becomes a
distinguished crash outcome.
-/

namespace VM

/-- `Location` from common.hpp: a `(line, offset)` pair; `size_t(-1)` is the
"not applicable" sentinel used by the default constructor. -/
structure Location where
  line : Nat
  offset : Nat
  deriving Repr, DecidableEq

/-- `Location::unreachable = static_cast<size_t>(-1)`. -/
def Location.unreachable : Nat := 18446744073709551615

/-- The default-constructed `Location()`. -/
def Location.default : Location :=
  ⟨Location.unreachable, Location.unreachable⟩

/-- `Status::Code` from common.hpp. -/
inductive StatusCode where
  | ERROR
  | SUCCESS
  | NOTE
  | WARNING
  deriving Repr, DecidableEq

/-- `Status` from common.hpp: code, message and location. -/
structure Status where
  code : StatusCode
  message : String
  loc : Location
  deriving Repr, DecidableEq

/-- The default-constructed `Status()`: SUCCESS, empty message, default
location. -/
def Status.default : Status :=
  ⟨StatusCode.SUCCESS, "", Location.default⟩

/-- `Token::Kind` from token.hpp.  The constructors follow the enum
declaration order: `undef`, the punctuators of `FOR_PUNCTUATORS`, the
keywords of `FOR_KEYWORDS`, the utilities of `FOR_UTILITIES`.

The last four constructors (`void_t`, `else_kw`, `in_kw`, `anot`) are
referenced by token.cpp, parser.cpp and ast.cpp but are absent from the
token tables in token.hpp.  Modelled from the spec: §3 lists `void` among
the type keywords, §4.3 uses `else` and `in` in the statement grammar, and
§9 records `anot` as a unary-operator token that exists in no token table.
None of them can be produced by the scanner, whose tables are exactly the
ones of token.hpp. -/
inductive Kind where
  | undef
  | lor | land | eq | neq | ge | le | range | incrset | decrset
  | lparen | rparen | lbrace | rbrace | assign | aor | aand | axor
  | lnot | gt | lt | add | sub | mul | div | mod | comma | semi
  | double_t | int_t | string_t | for_kw | while_kw | if_kw
  | print_kw | function_kw | native_kw | return_kw
  | eof | ident | double_l | int_l | string_l
  | void_t | else_kw | in_kw | anot
  deriving Repr, DecidableEq

/-- The `FOR_PUNCTUATORS` table of token.hpp: kind, lexeme, precedence.
Order matters (it is the matching order in the scanner): the table is
sorted by lexeme length as the comment in token.hpp demands. -/
def punctuatorTable : List (Kind × String × Nat) :=
  [ (Kind.lor, "||", 4), (Kind.land, "&&", 5), (Kind.eq, "==", 9),
    (Kind.neq, "!=", 9), (Kind.ge, ">=", 10), (Kind.le, "<=", 10),
    (Kind.range, "..", 9), (Kind.incrset, "+=", 14), (Kind.decrset, "-=", 14),
    (Kind.lparen, "(", 0), (Kind.rparen, ")", 0), (Kind.lbrace, "\x7b", 0),
    (Kind.rbrace, "\x7d", 0), (Kind.assign, "=", 2), (Kind.aor, "|", 4),
    (Kind.aand, "&", 5), (Kind.axor, "^", 5), (Kind.lnot, "!", 0),
    (Kind.gt, ">", 10), (Kind.lt, "<", 10), (Kind.add, "+", 12),
    (Kind.sub, "-", 12), (Kind.mul, "*", 13), (Kind.div, "/", 13),
    (Kind.mod, "%", 13), (Kind.comma, ",", 0), (Kind.semi, ";", 0) ]

/-- The `FOR_KEYWORDS` table of token.hpp: kind and lexeme.  Keywords carry
no precedence column; they are not infix operators. -/
def keywordTable : List (Kind × String) :=
  [ (Kind.double_t, "double"), (Kind.int_t, "int"), (Kind.string_t, "string"),
    (Kind.for_kw, "for"), (Kind.while_kw, "while"), (Kind.if_kw, "if"),
    (Kind.print_kw, "print"), (Kind.function_kw, "function"),
    (Kind.native_kw, "native"), (Kind.return_kw, "return") ]

/-- The `FOR_UTILITIES` table of token.hpp: kinds with empty lexemes. -/
def utilityTable : List (Kind × String) :=
  [ (Kind.eof, ""), (Kind.ident, ""), (Kind.double_l, ""),
    (Kind.int_l, ""), (Kind.string_l, "") ]

/-- The `FOR_TOKENS` table.  Its definition is not present under src/ (only
its uses in token.cpp and scanner.cpp are).  Modelled from the spec: token
kinds partition into punctuators (each with a binding precedence),
keywords and literals/identifiers/end-of-input (§3); the table is the
concatenation of the three tables above in the enum declaration order of
token.hpp, keywords and utilities carrying precedence 0 ("0 = not an infix
operator"). -/
def tokenTable : List (Kind × String × Nat) :=
  punctuatorTable
    ++ (keywordTable.map fun p => (p.1, p.2, 0))
    ++ (utilityTable.map fun p => (p.1, p.2, 0))

/-- `Token::get_token_value` (token.cpp): the table lexeme of a kind; the
out-of-table fallback entry is the empty string. -/
def getTokenValue (kind : Kind) : String :=
  match (tokenTable.find? fun e => e.1 = kind) with
  | some e => e.2.1
  | none => ""

/-- `Token::get_token_kind` (token.cpp): `undef` for the empty string,
otherwise the first table entry whose lexeme equals the argument, `undef`
when none does. -/
def getTokenKind (value : String) : Kind :=
  if value = "" then Kind.undef
  else
    match (tokenTable.find? fun e => e.2.1 = value) with
    | some e => e.1
    | none => Kind.undef

/-- `Token::get_precedence`.  Its definition is not present under src/
(only its calls in parser.cpp are).  Modelled from the spec: each
punctuator kind carries the binding precedence of the `FOR_PUNCTUATORS`
column, and "0 = not an infix operator" for every other kind (§3). -/
def getPrecedence (kind : Kind) : Nat :=
  match (tokenTable.find? fun e => e.1 = kind) with
  | some e => e.2.2
  | none => 0

/-- `Token::is_keyword` (token.cpp): the enum-range check
`double_t <= kind && kind <= return_kw`, written out over the kinds that
lie in that range of the token.hpp enum. -/
def isKeyword (kind : Kind) : Bool :=
  match kind with
  | Kind.double_t | Kind.int_t | Kind.string_t | Kind.for_kw
  | Kind.while_kw | Kind.if_kw | Kind.print_kw | Kind.function_kw
  | Kind.native_kw | Kind.return_kw => true
  | _ => false

/-- `Token::is_assignment` (token.cpp). -/
def isAssignment (kind : Kind) : Bool :=
  kind = Kind.incrset || kind = Kind.decrset || kind = Kind.assign

/-- `Token::is_typename` (token.cpp). -/
def isTypename (kind : Kind) : Bool :=
  kind = Kind.double_t || kind = Kind.int_t || kind = Kind.string_t
    || kind = Kind.void_t

/-- `Token` from token.hpp: kind, lexeme value and location. -/
structure Token where
  kind : Kind
  value : String
  loc : Location
  deriving Repr, DecidableEq

/-- The `Token(Kind, Location)` constructor: the value is looked up in the
token table. -/
def Token.ofKind (kind : Kind) (loc : Location) : Token :=
  ⟨kind, getTokenValue kind, loc⟩

/-- `TokenList` from scanner.hpp is a vector of tokens. -/
def TokenList := List Token

/-- The `err` sentinel of `TokenList::at`: a default-constructed
`Token(Token::undef)`. -/
def undefToken : Token := Token.ofKind Kind.undef Location.default

/-- The `end` sentinel of `TokenList::at`: `Token(Token::eof)`. -/
def eofToken : Token := Token.ofKind Kind.eof Location.default

/-- `TokenList::at` (scanner.cpp): the stored token below the size, the
eof sentinel exactly at the size, the undef sentinel beyond. -/
def TokenList.at (tokens : TokenList) (index : Nat) : Token :=
  if h : index < List.length tokens then
    List.get tokens ⟨index, h⟩
  else if index = List.length tokens then eofToken
  else undefToken

/-! ### Scanner (scanner.cpp)

The scanner state `(pos_, line_, offset_)` becomes the remaining character
list plus the `(line, offset)` pair threaded through every function.
`peek_char` beyond the end of the source reads `'\0'`, exactly as
`code_->at` guarded by the size check does. -/

/-- `detail::is_letter`. -/
def isLetter (ch : Char) : Bool :=
  ('A' ≤ ch && ch ≤ 'Z') || ('a' ≤ ch && ch ≤ 'z') || ch = '_'

/-- `detail::is_digit`. -/
def isDigit (ch : Char) : Bool :=
  '0' ≤ ch && ch ≤ '9'

/-- `detail::is_whitespace`. -/
def isWhitespace (ch : Char) : Bool :=
  ch = ' ' || ch = '\t' || ch = '\r' || ch = '\n'

/-- `detail::get_unescaped`. -/
def getUnescaped (ch : Char) : Char :=
  match ch with
  | 'n' => '\n'
  | 't' => '\t'
  | 'r' => '\r'
  | '\\' => '\\'
  | '\'' => '\''
  | _ => ch

/-- `Scanner::peek_char` with offset 0: the next character, `'\0'` past the
end. -/
def peekCh (input : List Char) : Char :=
  input.headD '\x00'

/-- `Scanner::peek_char` with an explicit offset. -/
def peekChAt (input : List Char) (off : Nat) : Char :=
  input.getD off '\x00'

/-- The position bookkeeping of `Scanner::get_char`: the offset advances by
one, and a newline resets the offset and advances the line. -/
def advance (ch : Char) (l o : Nat) : Nat × Nat :=
  if ch = '\n' then (l + 1, 0) else (l, o + 1)

/-- `Scanner::skip_chars` position bookkeeping over a list of consumed
characters. -/
def advMany : List Char → Nat → Nat → Nat × Nat
  | [], l, o => (l, o)
  | ch :: rest, l, o =>
    let p := advance ch l o
    advMany rest p.1 p.2

/-- `Scanner::skip_whitespaces`. -/
def skipWs : List Char → Nat → Nat → List Char × Nat × Nat
  | [], l, o => ([], l, o)
  | ch :: rest, l, o =>
    if isWhitespace ch then
      let p := advance ch l o
      skipWs rest p.1 p.2
    else (ch :: rest, l, o)

/-- The loop of `Scanner::skip_comment`:
`while (peek_char() != '\0' && get_char() != '\n');`. -/
def dropCommentGo : List Char → Nat → Nat → List Char × Nat × Nat
  | [], l, o => ([], l, o)
  | ch :: rest, l, o =>
    if ch = '\x00' then (ch :: rest, l, o)
    else
      let p := advance ch l o
      if ch = '\n' then (rest, p.1, p.2)
      else dropCommentGo rest p.1 p.2

/-- `Scanner::skip_comment`: only a leading `//` starts a comment. -/
def skipComment (input : List Char) (l o : Nat) : List Char × Nat × Nat :=
  if peekCh input = '/' ∧ peekChAt input 1 = '/' then
    dropCommentGo input l o
  else (input, l, o)

/-- `Scanner::scan_ident`: greedily consume letters and digits, then map
the lexeme through the keyword table (`get_token_kind`), falling back to
`ident`. -/
def scanIdent (input : List Char) (l o : Nat) : Token × List Char × Nat × Nat :=
  let val := input.takeWhile fun ch => isLetter ch || isDigit ch
  let rest := input.dropWhile fun ch => isLetter ch || isDigit ch
  let value := String.mk val
  let kind := if getTokenKind value = Kind.undef then Kind.ident else getTokenKind value
  let p := advMany val l o
  (⟨kind, value, ⟨l, o⟩⟩, rest, p.1, p.2)

/-- `Scanner::scan_number`: digits, then an optional `e`/`.` part (with the
source's exact sign handling) followed by more digits. -/
def scanNumber (input : List Char) (l o : Nat) : Token × List Char × Nat × Nat :=
  let ds1 := input.takeWhile isDigit
  let rest1 := input.dropWhile isDigit
  let c0 := peekCh rest1
  if c0 = 'e' ∨ c0 = '.' then
    let extraLen : Nat :=
      if c0 = 'e' ∧ (peekChAt rest1 1 = '-' ∨ peekChAt rest1 1 = '+') then 2 else 1
    let taken := ds1 ++ rest1.take extraLen ++ (rest1.drop extraLen).takeWhile isDigit
    let rest3 := (rest1.drop extraLen).dropWhile isDigit
    let p := advMany taken l o
    (⟨Kind.double_l, String.mk taken, ⟨l, o⟩⟩, rest3, p.1, p.2)
  else
    let p := advMany ds1 l o
    (⟨Kind.int_l, String.mk ds1, ⟨l, o⟩⟩, rest1, p.1, p.2)

/-- The body loop of `Scanner::scan_string`, including the escape-handling
slip of the source: after an escape sequence is recognized and unescaped,
the unconditional `value += get_char()` consumes and appends one further
character. -/
def scanStringGo : List Char → Nat → Nat → List Char → List Char × List Char × Nat × Nat
  | [], l, o, acc => (acc, [], l, o)
  | ch :: rest, l, o, acc =>
    if ch = '\x00' ∨ ch = '\'' then (acc, ch :: rest, l, o)
    else if ch = '\\' ∧ peekCh rest ≠ '\x00' then
      match rest with
      | [] => (acc, [ch], l, o)
      | esc :: rest2 =>
        let p1 := advance ch l o
        let p2 := advance esc p1.1 p1.2
        match rest2 with
        | [] =>
          let p3 := advance '\x00' p2.1 p2.2
          (acc ++ [getUnescaped esc, '\x00'], [], p3.1, p3.2)
        | nxt :: rest3 =>
          let p3 := advance nxt p2.1 p2.2
          scanStringGo rest3 p3.1 p3.2 (acc ++ [getUnescaped esc, nxt])
    else
      let p := advance ch l o
      scanStringGo rest p.1 p.2 (acc ++ [ch])

/-- Result of `Scanner::scan_string`: a string token, or the
"unexpected end of file" diagnostic. -/
inductive ScanStrRes where
  | tok (t : Token) (rest : List Char) (l o : Nat)
  | err (loc : Location)
  deriving Repr

/-- `Scanner::scan_string`: consume the opening quote, run the body loop,
then demand the closing quote. -/
def scanString (input : List Char) (l o : Nat) : ScanStrRes :=
  match input with
  | [] => ScanStrRes.err ⟨l, o⟩
  | q :: rest =>
    let p := advance q l o
    let r := scanStringGo rest p.1 p.2 []
    match hr : r.2.1 with
    | c :: rest2 =>
      if c = '\'' then
        let p2 := advance c r.2.2.1 r.2.2.2
        ScanStrRes.tok ⟨Kind.string_l, String.mk r.1, ⟨l, o⟩⟩ rest2 p2.1 p2.2
      else ScanStrRes.err ⟨r.2.2.1, r.2.2.2⟩
    | [] => ScanStrRes.err ⟨r.2.2.1, r.2.2.2⟩

/-- The `strncmp(s, val, strlen(s)) == 0` test of `Scanner::scan_impl`:
the table lexeme must be a character-for-character prefix of the (at most
two character) `val` buffer. -/
def strncmpPrefix : List Char → List Char → Bool
  | [], _ => true
  | _ :: _, [] => false
  | a :: s, b :: v => a == b && strncmpPrefix s v

/-- The `val` buffer of `Scanner::scan_impl`:
`char const val[3] = { ch, peek_char(1), '\0' }` read as a C string. -/
def punctVal (input : List Char) : List Char :=
  let c1 := peekCh input
  let c2 := peekChAt input 1
  if c2 = '\x00' then [c1] else [c1, c2]

/-- The token-table matching loop of `Scanner::scan_impl`: the first entry
with a non-empty lexeme (`strlen(s) != 0`) that prefix-matches `val`. -/
def matchPunct (val : List Char) : Option (Kind × String × Nat) :=
  tokenTable.find? fun e => (e.2.1.length != 0) && strncmpPrefix e.2.1.toList val

theorem dropWhile_length_le (p : Char → Bool) (input : List Char) :
    (input.dropWhile p).length ≤ input.length := by
  induction input with
  | nil => simp
  | cons ch rest ih =>
    simp only [List.dropWhile_cons]
    split
    · exact le_trans ih (by simp)
    · simp

theorem skipWs_length_le (input : List Char) (l o : Nat) :
    (skipWs input l o).1.length ≤ input.length := by
  induction input generalizing l o with
  | nil => simp [skipWs]
  | cons ch rest ih =>
    simp only [skipWs]
    split
    · exact le_trans (ih _ _) (by simp)
    · simp

theorem dropCommentGo_length_le (input : List Char) (l o : Nat) :
    (dropCommentGo input l o).1.length ≤ input.length := by
  induction input generalizing l o with
  | nil => simp [dropCommentGo]
  | cons ch rest ih =>
    simp only [dropCommentGo]
    split
    · simp
    · split
      · simp
      · exact le_trans (ih _ _) (by simp)

theorem skipComment_length_le (input : List Char) (l o : Nat) :
    (skipComment input l o).1.length ≤ input.length := by
  simp only [skipComment]
  split
  · exact dropCommentGo_length_le input l o
  · exact le_refl _

theorem scanStringGo_length_le (input : List Char) (l o : Nat) (acc : List Char) :
    (scanStringGo input l o acc).2.1.length ≤ input.length := by
  induction input, l, o, acc using scanStringGo.induct
  case case1 => simp [scanStringGo]
  case case2 ch rest l o acc h1 =>
    rw [scanStringGo.eq_def]
    simp [h1]
  case case3 ch l o acc h1 h2 =>
    exact absurd h2.2 (by simp [peekCh])
  case case4 ch l o acc h1 nxt h2 =>
    rw [scanStringGo.eq_def]
    simp [h1, h2]
  case case5 ch l o acc h1 esc p1 p2 nxt rest3 p3 h2 ih =>
    rw [scanStringGo.eq_def]
    simp only [if_neg h1, if_pos h2]
    have h3 : rest3.length ≤ (esc :: nxt :: rest3).length + 1 := by
      simp only [List.length_cons]
      omega
    exact le_trans ih (by simp only [List.length_cons] at h3 ⊢; omega)
  case case6 ch rest l o acc h1 h2 p ih =>
    rw [scanStringGo.eq_def]
    simp only [if_neg h1, if_neg h2]
    exact le_trans ih (by simp)

theorem scanIdent_rest_lt (ch : Char) (rest : List Char) (l o : Nat)
    (h : (isLetter ch || isDigit ch) = true) :
    ((scanIdent (ch :: rest) l o).2.1).length < (ch :: rest).length := by
  simp only [scanIdent, List.dropWhile_cons, h, if_true]
  have := dropWhile_length_le (fun c => isLetter c || isDigit c) rest
  simp only [List.length_cons]
  omega

theorem scanNumber_rest_lt (ch : Char) (rest : List Char) (l o : Nat)
    (h : isDigit ch = true) :
    ((scanNumber (ch :: rest) l o).2.1).length < (ch :: rest).length := by
  have hdw : ((ch :: rest).dropWhile isDigit).length ≤ rest.length := by
    simp [List.dropWhile_cons, h]
    exact dropWhile_length_le isDigit rest
  simp only [scanNumber]
  split
  · have h1 := dropWhile_length_le isDigit
      (((ch :: rest).dropWhile isDigit).drop
        (if peekCh ((ch :: rest).dropWhile isDigit) = 'e' ∧
            (peekChAt ((ch :: rest).dropWhile isDigit) 1 = '-' ∨
              peekChAt ((ch :: rest).dropWhile isDigit) 1 = '+') then 2 else 1))
    have h2 := List.length_drop
      (if peekCh ((ch :: rest).dropWhile isDigit) = 'e' ∧
          (peekChAt ((ch :: rest).dropWhile isDigit) 1 = '-' ∨
            peekChAt ((ch :: rest).dropWhile isDigit) 1 = '+') then 2 else 1)
      ((ch :: rest).dropWhile isDigit)
    simp only [List.length_cons]
    omega
  · simp only [List.length_cons]
    omega

theorem scanString_tok_rest_lt (input : List Char) (l o : Nat)
    (t : Token) (rest' : List Char) (l' o' : Nat)
    (h : scanString input l o = ScanStrRes.tok t rest' l' o') :
    rest'.length < input.length := by
  match input with
  | [] => simp [scanString] at h
  | q :: rest =>
    have hgo := scanStringGo_length_le rest (advance q l o).1 (advance q l o).2 []
    simp only [scanString] at h
    split at h
    case _ c rest2 heq =>
      split at h
      · simp only [ScanStrRes.tok.injEq] at h
        obtain ⟨-, hrest, -, -⟩ := h
        subst hrest
        rw [heq] at hgo
        simp only [List.length_cons] at hgo ⊢
        omega
      · exact absurd h (by simp)
    case _ => exact absurd h (by simp)

theorem matchPunct_length_pos (val : List Char) (e : Kind × String × Nat)
    (h : matchPunct val = some e) : 0 < e.2.1.length := by
  have := List.find?_some h
  have hb := (Bool.and_eq_true _ _).mp this
  have := hb.1
  simp only [bne_iff_ne, ne_eq] at this
  omega

/-- `Scanner::scan_impl`: the main loop.  Each iteration skips whitespace,
skips one line comment when the cursor is at `//`, then dispatches on the
next character: identifier/keyword, number, string literal, or the token
table match; an unmatched character is the "undefined token" error.  On a
normal exit the status is the one `Scanner::reset` installed
(default-constructed SUCCESS).

The C++ loop is unbounded; here it carries a fuel counter and `none`
means the fuel ran out.  Every iteration that recurses consumes at least
one character, so any fuel above the input length is enough
(`scanImpl_isSome` below), and `Scanner::scan` always supplies such a
fuel: the `none` case is unreachable from `Scanner.scan`. -/
def scanImpl : Nat → List Char → Nat → Nat → List Token → Option (List Token × Status)
  | 0, _, _, _, _ => none
  | fuel + 1, input, l, o, acc =>
    if peekCh input = '\x00' then some (acc, Status.default)
    else
      let s1 := skipWs input l o
      let s2 := skipComment s1.1 s1.2.1 s1.2.2
      let l2 := s2.2.1
      let o2 := s2.2.2
      match s2.1 with
      | [] => some (acc, Status.default)
      | ch :: rest =>
        if ch = '\x00' then some (acc, Status.default)
        else if isLetter ch then
          let r := scanIdent (ch :: rest) l2 o2
          scanImpl fuel r.2.1 r.2.2.1 r.2.2.2 (acc ++ [r.1])
        else if isDigit ch then
          let r := scanNumber (ch :: rest) l2 o2
          scanImpl fuel r.2.1 r.2.2.1 r.2.2.2 (acc ++ [r.1])
        else if ch = '\'' then
          match scanString (ch :: rest) l2 o2 with
          | ScanStrRes.tok t rest' l' o' => scanImpl fuel rest' l' o' (acc ++ [t])
          | ScanStrRes.err loc =>
            some (acc, ⟨StatusCode.ERROR, "unexpected end of file", loc⟩)
        else
          match matchPunct (punctVal (ch :: rest)) with
          | some e =>
            let tok : Token := ⟨e.1, e.2.1, ⟨l2, o2⟩⟩
            let n := e.2.1.length
            let p := advMany ((ch :: rest).take n) l2 o2
            scanImpl fuel ((ch :: rest).drop n) p.1 p.2 (acc ++ [tok])
          | none => some (acc, ⟨StatusCode.ERROR, "undefined token", ⟨l2, o2⟩⟩)

/-- Any fuel above the input length lets `scanImpl` finish: each
iteration that recurses consumes at least one input character. -/
theorem scanImpl_isSome : ∀ (fuel : Nat) (input : List Char) (l o : Nat)
    (acc : List Token), input.length < fuel →
    (scanImpl fuel input l o acc).isSome = true := by
  intro fuel
  induction fuel with
  | zero => intro input l o acc h; omega
  | succ fuel ih =>
    intro input l o acc hlen
    simp only [scanImpl]
    split
    · simp
    · have hs2 : ((skipComment (skipWs input l o).1 (skipWs input l o).2.1
          (skipWs input l o).2.2).1).length ≤ input.length :=
        le_trans (skipComment_length_le _ _ _) (skipWs_length_le _ _ _)
      split
      · simp
      case _ hpeek x ch rest heq =>
        rw [heq] at hs2
        simp only [List.length_cons] at hs2
        split
        · simp
        · split
          case _ hl =>
            refine ih _ _ _ _ ?_
            refine lt_of_lt_of_le (scanIdent_rest_lt _ _ _ _ (by simp [hl])) ?_
            simp only [List.length_cons]
            omega
          · split
            case _ hd =>
              refine ih _ _ _ _ ?_
              refine lt_of_lt_of_le (scanNumber_rest_lt _ _ _ _ hd) ?_
              simp only [List.length_cons]
              omega
            · split
              · split
                · rename_i hs
                  refine ih _ _ _ _ ?_
                  refine lt_of_lt_of_le (scanString_tok_rest_lt _ _ _ _ _ _ _ hs) ?_
                  simp only [List.length_cons]
                  omega
                · simp
              · split
                · rename_i e hm
                  refine ih _ _ _ _ ?_
                  have hn := matchPunct_length_pos _ _ hm
                  have hdrop := List.length_drop e.2.1.length (ch :: rest)
                  simp only [List.length_cons] at hdrop ⊢
                  omega
                · simp

/-- `Scanner::scan`: reset the position to the origin and run the loop.
The supplied fuel exceeds the input length, so by `scanImpl_isSome` the
fallback value is never the result. -/
def Scanner.scan (code : String) : List Token × Status :=
  (scanImpl (code.toList.length + 1) code.toList 0 0 []).getD ([], Status.default)

/-! ### AST, scopes and symbol tables (ast.hpp / ast.cpp) -/

/-- The `Type` enumeration of ast.hpp (`Type` is reserved in Lean, hence
`Ty`). -/
inductive Ty where
  | Invalid
  | Void
  | Int
  | Double
  | String
  deriving Repr, DecidableEq

/-- `Variable` (ast.cpp): type, name and source span.  The `owner_`
back-pointer installed by `set_owner` is an identity link with no effect on
any observable behaviour modelled here and is omitted. -/
structure Variable where
  type : Ty
  name : String
  start : Location
  finish : Location
  deriving Repr, DecidableEq

/-- `Signature` (ast.cpp): return type, name and the ordered parameter
list. -/
structure Signature where
  return_type : Ty
  name : String
  params : List (Ty × String)
  deriving Repr, DecidableEq

/-- The AST node variants of ast.cpp.  Every node's trailing two locations
are its `(start, finish)` span.  `doubleLit` records the literal lexeme:
the `strtod` numeric value is floating point and only the full-consumption
check of `Parser::parse_double` is modelled. -/
inductive Node where
  | intLit (value : Int) (start finish : Location)
  | doubleLit (lexeme : String) (start finish : Location)
  | stringLit (value : String) (start finish : Location)
  | load (var : Variable) (start finish : Location)
  | store (var : Variable) (expression : Node) (kind : Kind) (start finish : Location)
  | unaryExpr (kind : Kind) (operand : Node) (start finish : Location)
  | binaryExpr (kind : Kind) (left right : Node) (start finish : Location)
  | callNode (name : String) (params : List Node) (start finish : Location)
  | printNode (params : List Node) (start finish : Location)
  | nativeCall (signature : Signature) (start finish : Location)
  | block (instructions : List Node) (start finish : Location)
  | ifNode (expression : Node) (thenBlock : Node) (elseBlock : Option Node) (start finish : Location)
  | whileNode (expression : Node) (body : Node) (start finish : Location)
  | forNode (var : Variable) (expression : Node) (body : Node) (start finish : Location)
  | returnNode (expression : Option Node) (start finish : Location)
  deriving Repr

/-- `LocatedInFile::start`. -/
def Node.start : Node → Location
  | Node.intLit _ s _ => s
  | Node.doubleLit _ s _ => s
  | Node.stringLit _ s _ => s
  | Node.load _ s _ => s
  | Node.store _ _ _ s _ => s
  | Node.unaryExpr _ _ s _ => s
  | Node.binaryExpr _ _ _ s _ => s
  | Node.callNode _ _ s _ => s
  | Node.printNode _ s _ => s
  | Node.nativeCall _ s _ => s
  | Node.block _ s _ => s
  | Node.ifNode _ _ _ s _ => s
  | Node.whileNode _ _ s _ => s
  | Node.forNode _ _ _ s _ => s
  | Node.returnNode _ s _ => s

/-- `LocatedInFile::finish`. -/
def Node.finish : Node → Location
  | Node.intLit _ _ f => f
  | Node.doubleLit _ _ f => f
  | Node.stringLit _ _ f => f
  | Node.load _ _ f => f
  | Node.store _ _ _ _ f => f
  | Node.unaryExpr _ _ _ f => f
  | Node.binaryExpr _ _ _ _ f => f
  | Node.callNode _ _ _ f => f
  | Node.printNode _ _ f => f
  | Node.nativeCall _ _ f => f
  | Node.block _ _ f => f
  | Node.ifNode _ _ _ _ f => f
  | Node.whileNode _ _ _ f => f
  | Node.forNode _ _ _ _ f => f
  | Node.returnNode _ _ f => f

/-- `Function` (ast.cpp): a signature with a body block and a span. -/
structure Function where
  signature : Signature
  body : Node
  start : Location
  finish : Location
  deriving Repr

/-- The exact-key search of `std::map::find`. -/
def mapFind {α : Type} (m : List (String × α)) (name : String) : Option α :=
  (m.find? fun p => p.1 == name).map fun p => p.2

/-- The insert-or-overwrite of `std::map::operator[] =`: replace the entry
with the same key when one exists, append otherwise. -/
def mapInsert {α : Type} : List (String × α) → String → α → List (String × α)
  | [], name, v => [(name, v)]
  | (k, w) :: rest, name, v =>
    if k == name then (k, v) :: rest else (k, w) :: mapInsert rest name v

/-- `Scope` (ast.cpp): the two name-to-definition maps plus the owner
link.  A C++ `Scope` is constructed with an owner pointer that is either
null (`Scope.top`, the root scope) or another scope (`Scope.child`); the
two constructors spell out those two states of the `owner_` field.  The
`children_` registry only drives destruction and is omitted. -/
inductive Scope where
  | top (vars : List (String × Variable)) (funs : List (String × Function))
  | child (vars : List (String × Variable)) (funs : List (String × Function))
      (owner : Scope)
  deriving Repr

/-- Build a scope from an optional owner pointer, exactly as the
`Scope(Scope *owner)` constructor receives it. -/
def Scope.mk (vars : List (String × Variable)) (funs : List (String × Function)) :
    Option Scope → Scope
  | none => Scope.top vars funs
  | some ow => Scope.child vars funs ow

/-- The `variables_` map of a scope. -/
def Scope.varsMap : Scope → List (String × Variable)
  | Scope.top vars _ => vars
  | Scope.child vars _ _ => vars

/-- The `functions_` map of a scope. -/
def Scope.funsMap : Scope → List (String × Function)
  | Scope.top _ funs => funs
  | Scope.child _ funs _ => funs

/-- `Scope::owner`. -/
def Scope.owner : Scope → Option Scope
  | Scope.top _ _ => none
  | Scope.child _ _ ow => some ow

/-- `Scope::lookup_variable` (ast.cpp): this scope's map first, then the
owner chain; `nullptr` when the root is reached without a match. -/
def Scope.lookup_variable : Scope → String → Option Variable
  | Scope.top vars _, name => mapFind vars name
  | Scope.child vars _ ow, name =>
    match mapFind vars name with
    | some v => some v
    | none => ow.lookup_variable name

/-- `Scope::lookup_function` (ast.cpp). -/
def Scope.lookup_function : Scope → String → Option Function
  | Scope.top _ funs, name => mapFind funs name
  | Scope.child _ funs ow, name =>
    match mapFind funs name with
    | some f => some f
    | none => ow.lookup_function name

/-- `Scope::define_variable` (ast.cpp): `variables_[var->name()] = var`,
the unconditional `std::map::operator[]` write. -/
def Scope.define_variable : Scope → Variable → Scope
  | Scope.top vars funs, var => Scope.top (mapInsert vars var.name var) funs
  | Scope.child vars funs ow, var => Scope.child (mapInsert vars var.name var) funs ow

/-- `Scope::define_function` (ast.cpp): `functions_[fun->name()] = fun`. -/
def Scope.define_function : Scope → Function → Scope
  | Scope.top vars funs, fn => Scope.top vars (mapInsert funs fn.signature.name fn)
  | Scope.child vars funs ow, fn =>
    Scope.child vars (mapInsert funs fn.signature.name fn) ow

/-- The scope together with its ancestors, innermost first. -/
def Scope.chain : Scope → List Scope
  | Scope.top vars funs => [Scope.top vars funs]
  | Scope.child vars funs ow => Scope.child vars funs ow :: ow.chain

/-- The root of the owner chain. -/
def Scope.root : Scope → Scope
  | Scope.top vars funs => Scope.top vars funs
  | Scope.child _ _ ow => ow.root

/-- `Program` (parser.cpp): the top-level function pointer (null when
`parse_toplevel` failed) and the root scope. -/
structure Program where
  top : Option Function
  scope : Option Scope
  deriving Repr

/-! ### Parser (parser.cpp)

The parser's mutable state — token list, cursor `pos_`, the status slot
and the current-scope pointer — becomes `PState`.  A C++ function
returning `unique_ptr<X>` becomes a `ParseM (Option X)` computation; a
failed `assert` is the `crash` outcome, and exhausted recursion fuel is
the `timeout` outcome (the C++ recursion has no such bound; every theorem
below either quantifies over the fuel or supplies one large enough that
`timeout` does not arise). -/

/-- The parser state: `tokens_`, `pos_`, `*status_` and `scope_`. -/
structure PState where
  tokens : List Token
  pos : Nat
  status : Status
  scope : Option Scope

/-- Outcome of a parsing computation. -/
inductive POut (α : Type) where
  | ret (a : α) (s : PState)
  | crash
  | timeout

/-- State-passing parsing computations. -/
def ParseM (α : Type) := PState → POut α

instance : Monad ParseM where
  pure a := fun s => POut.ret a s
  bind x f := fun s =>
    match x s with
    | POut.ret a s' => f a s'
    | POut.crash => POut.crash
    | POut.timeout => POut.timeout

/-- A C++ `assert`: evaluate the (already computed) condition, crash when
it is false. -/
def passert (b : Bool) : ParseM Unit := fun s =>
  if b then POut.ret () s else POut.crash

/-- `Parser::peek_token`: `tokens_.at(pos_ + offset).kind()`. -/
def peek_token (off : Nat) : ParseM Kind := fun s =>
  POut.ret (TokenList.at s.tokens (s.pos + off)).kind s

/-- `Parser::location`: `tokens_.at(pos_).location()`. -/
def locationM : ParseM Location := fun s =>
  POut.ret (TokenList.at s.tokens s.pos).loc s

/-- `Parser::extract_token`: read the token at the cursor, then consume
one token. -/
def extract_token : ParseM Token := fun s =>
  POut.ret (TokenList.at s.tokens s.pos) { s with pos := s.pos + 1 }

/-- `Parser::ensure_token`: consume the next token exactly when it has the
wanted kind. -/
def ensure_token (kind : Kind) : ParseM Bool := fun s =>
  if (TokenList.at s.tokens s.pos).kind = kind then
    POut.ret true { s with pos := s.pos + 1 }
  else POut.ret false s

/-- `Parser::error`: overwrite the status slot with an ERROR status. -/
def errorM (message : String) (loc : Location) : ParseM Unit := fun s =>
  POut.ret () { s with status := ⟨StatusCode.ERROR, message, loc⟩ }

/-- `Parser::is_ok`: the status code is not ERROR. -/
def is_okM : ParseM Bool := fun s =>
  POut.ret (decide (s.status.code ≠ StatusCode.ERROR)) s

/-- `Parser::push_scope`: `scope_ = new Scope(scope_)`. -/
def push_scope : ParseM Unit := fun s =>
  POut.ret () { s with scope := some (Scope.mk [] [] s.scope) }

/-- `Parser::pop_scope`: `assert(scope_); scope_ = scope_->owner()`. -/
def pop_scope : ParseM Unit := fun s =>
  match s.scope with
  | some sc => POut.ret () { s with scope := sc.owner }
  | none => POut.crash

/-- `scope()->lookup_variable(name)`; dereferencing a null current scope
is a crash. -/
def lookupVarM (name : String) : ParseM (Option Variable) := fun s =>
  match s.scope with
  | some sc => POut.ret (sc.lookup_variable name) s
  | none => POut.crash

/-- `scope()->define_variable(var)`. -/
def defineVarM (var : Variable) : ParseM Unit := fun s =>
  match s.scope with
  | some sc => POut.ret () { s with scope := some (sc.define_variable var) }
  | none => POut.crash

/-- `scope()->define_function(fun)`. -/
def defineFunM (fn : Function) : ParseM Unit := fun s =>
  match s.scope with
  | some sc => POut.ret () { s with scope := some (sc.define_function fn) }
  | none => POut.crash

/-- `detail::token_to_type` (parser.cpp).  Kinds outside the four type
keywords are unreachable at every call site (each is guarded by a
dispatch or `is_typename` check); the model returns `Invalid` for them. -/
def token_to_type (kind : Kind) : Ty :=
  match kind with
  | Kind.double_t => Ty.Double
  | Kind.int_t => Ty.Int
  | Kind.string_t => Ty.String
  | Kind.void_t => Ty.Void
  | _ => Ty.Invalid

/-- `detail::is_unary` (parser.cpp). -/
def is_unary (kind : Kind) : Bool :=
  kind = Kind.lnot || kind = Kind.sub

/-- `isspace` of the C locale, as consumed by `strtol`/`strtod`. -/
def isCSpace (ch : Char) : Bool :=
  ch = ' ' || ch = '\t' || ch = '\n' || ch = '\x0b' || ch = '\x0c' || ch = '\r'

/-- The value of a decimal digit string. -/
def digitsVal (ds : List Char) : Nat :=
  ds.foldl (fun acc c => acc * 10 + (c.toNat - '0'.toNat)) 0

/-- `strtol(value, &endptr, 10)`: optional whitespace and sign, then
digits; the result is clamped to the `long` range and the unconsumed
remainder models `endptr`.  With no digits there is no conversion and the
remainder is the whole input. -/
def strtolChars (s : List Char) : Int × List Char :=
  let ws := s.dropWhile isCSpace
  let signed : (Int → Int) × List Char :=
    match ws with
    | '-' :: rest => ((fun n => -n), rest)
    | '+' :: rest => ((fun n => n), rest)
    | _ => ((fun n => n), ws)
  let ds := signed.2.takeWhile isDigit
  if ds.isEmpty then (0, s)
  else
    let n : Int := signed.1 (Int.ofNat (digitsVal ds))
    let clamped : Int :=
      if n > 9223372036854775807 then 9223372036854775807
      else if n < -9223372036854775808 then -9223372036854775808
      else n
    (clamped, signed.2.dropWhile isDigit)

/-- The `endptr` of `strtod(value, &endptr)` for the decimal forms the
scanner can produce: optional whitespace and sign, a mantissa with at
least one digit (digits, optionally a point with more digits), and an
optional exponent that is consumed only when it carries at least one
digit.  With no conversion the remainder is the whole input. -/
def strtodEnd (s : List Char) : List Char :=
  let ws := s.dropWhile isCSpace
  let body := match ws with | '-' :: r => r | '+' :: r => r | _ => ws
  let d1 := body.takeWhile isDigit
  let r1 := body.dropWhile isDigit
  let hasDot := peekCh r1 = '.'
  let r2 := if hasDot then r1.drop 1 else r1
  let d2 := if hasDot then r2.takeWhile isDigit else []
  let r3 := if hasDot then r2.dropWhile isDigit else r1
  if d1.isEmpty ∧ d2.isEmpty then s
  else
    match r3 with
    | 'e' :: rexp =>
      let ebody := match rexp with | '-' :: r => r | '+' :: r => r | _ => rexp
      if (ebody.takeWhile isDigit).isEmpty then r3 else ebody.dropWhile isDigit
    | 'E' :: rexp =>
      let ebody := match rexp with | '-' :: r => r | '+' :: r => r | _ => rexp
      if (ebody.takeWhile isDigit).isEmpty then r3 else ebody.dropWhile isDigit
    | _ => r3

/-- `Parser::parse_int`: extract the `int_l` token, run `strtol`, and
reject the literal unless the conversion consumed the whole lexeme. -/
def parse_int : ParseM (Option Node) := do
  let tok ← extract_token
  passert (tok.kind = Kind.int_l)
  let r := strtolChars tok.value.toList
  if peekCh r.2 ≠ '\x00' then do
    errorM "integer literal expected" tok.loc
    pure none
  else
    pure (some (Node.intLit r.1 tok.loc tok.loc))

/-- `Parser::parse_double`: extract the `double_l` token, run `strtod`,
and reject the literal unless the conversion consumed the whole lexeme. -/
def parse_double : ParseM (Option Node) := do
  let tok ← extract_token
  passert (tok.kind = Kind.double_l)
  if peekCh (strtodEnd tok.value.toList) ≠ '\x00' then do
    errorM "double literal expected" tok.loc
    pure none
  else
    pure (some (Node.doubleLit tok.value tok.loc tok.loc))

/-- The parameter-definition loop of `Parser::parse_function`: one
`Variable(type, name, tp.location(), location())` defined into the
current scope per signature parameter. -/
def defineParams : List (Ty × String) → Location → Location → ParseM Unit
  | [], _, _ => pure ()
  | p :: rest, ls, lf => do
    defineVarM ⟨p.1, p.2, ls, lf⟩
    defineParams rest ls lf


mutual

/-- `Parser::parse_toplevel`: collect statements until `eof`, then wrap
them in a `Block` inside the synthetic `_start` function. -/
def parse_toplevel : Nat → ParseM (Option Function)
  | 0 => fun _ => POut.timeout
  | fuel + 1 => do
    let instrs? ← toplevel_loop fuel []
    match instrs? with
    | none => pure none
    | some instrs =>
      let sign : Signature := ⟨Ty.Void, "_start", []⟩
      pure (some ⟨sign, Node.block instrs Location.default Location.default,
        Location.default, Location.default⟩)
termination_by structural fuel => fuel

/-- The statement loop of `Parser::parse_toplevel`: skip stray `;`, parse
one statement, abort when the status turned ERROR, append non-null
results. -/
def toplevel_loop : Nat → List Node → ParseM (Option (List Node))
  | 0, _ => fun _ => POut.timeout
  | fuel + 1, acc => do
    let k ← peek_token 0
    if k = Kind.eof then pure (some acc)
    else do
      let b ← ensure_token Kind.semi
      if b then toplevel_loop fuel acc
      else do
        let node ← parse_statement fuel
        let ok ← is_okM
        if !ok then pure none
        else
          match node with
          | some n => toplevel_loop fuel (acc ++ [n])
          | none => toplevel_loop fuel acc
termination_by structural fuel acc => fuel

/-- `Parser::parse_block`: push a scope, assert the `{`, run the statement
loop, pop the scope, then demand the `}`. -/
def parse_block : Nat → ParseM (Option Node)
  | 0 => fun _ => POut.timeout
  | fuel + 1 => do
    push_scope
    let b ← ensure_token Kind.lbrace
    passert b
    let instrs? ← block_loop fuel []
    match instrs? with
    | none => pure none
    | some instrs => do
      pop_scope
      let b2 ← ensure_token Kind.rbrace
      if !b2 then do
        errorM "\x7d expected" (← locationM)
        pure none
      else pure (some (Node.block instrs Location.default Location.default))
termination_by structural fuel => fuel

/-- The statement loop of `Parser::parse_block`: stop at `}`, skip stray
`;`, register `function` declarations into the current scope, otherwise
parse one statement. -/
def block_loop : Nat → List Node → ParseM (Option (List Node))
  | 0, _ => fun _ => POut.timeout
  | fuel + 1, acc => do
    let k ← peek_token 0
    if k = Kind.rbrace then pure (some acc)
    else do
      let b ← ensure_token Kind.semi
      if b then block_loop fuel acc
      else do
        let k2 ← peek_token 0
        if k2 = Kind.function_kw then do
          let fn? ← parse_function fuel
          match fn? with
          | none => pure none
          | some fn => do
            defineFunM fn
            block_loop fuel acc
        else do
          let stmt ← parse_statement fuel
          let ok ← is_okM
          if !ok then pure none
          else
            match stmt with
            | some n => block_loop fuel (acc ++ [n])
            | none => block_loop fuel acc
termination_by structural fuel acc => fuel

/-- `Parser::parse_statement`: dispatch on the next token's kind. -/
def parse_statement : Nat → ParseM (Option Node)
  | 0 => fun _ => POut.timeout
  | fuel + 1 => do
    let tok ← peek_token 0
    if isKeyword tok then
      match tok with
      | Kind.if_kw => parse_if fuel
      | Kind.for_kw => parse_for fuel
      | Kind.while_kw => parse_while fuel
      | Kind.print_kw => parse_print fuel
      | Kind.return_kw => parse_return fuel
      | Kind.int_t => parse_declaration fuel
      | Kind.double_t => parse_declaration fuel
      | Kind.string_t => parse_declaration fuel
      | _ => do
        errorM "unexpected token" (← locationM)
        pure none
    else if tok = Kind.lbrace then parse_block fuel
    else do
      let next ← peek_token 1
      if tok = Kind.ident ∧ isAssignment next then parse_assignment fuel
      else parse_expression fuel
termination_by structural fuel => fuel

/-- `Parser::parse_assignment`: the target identifier must resolve through
the scope chain; then the assignment operator and the right-hand
expression form a `StoreNode`. -/
def parse_assignment : Nat → ParseM (Option Node)
  | 0 => fun _ => POut.timeout
  | fuel + 1 => do
    let var ← extract_token
    passert (var.kind = Kind.ident)
    let v? ← lookupVarM var.value
    match v? with
    | none => do
      errorM ("unknown variable " ++ var.value) var.loc
      pure none
    | some v => do
      let op ← extract_token
      passert (isAssignment op.kind)
      let expr? ← parse_expression fuel
      match expr? with
      | none => pure none
      | some expr =>
        pure (some (Node.store v expr op.kind var.loc expr.finish))
termination_by structural fuel => fuel

/-- `Parser::parse_call`: the callee name is recorded in the `CallNode`
as-is; no lookup against any function table happens here. -/
def parse_call : Nat → ParseM (Option Node)
  | 0 => fun _ => POut.timeout
  | fuel + 1 => do
    let fn ← extract_token
    passert (fn.kind = Kind.ident)
    let b ← ensure_token Kind.lparen
    if !b then do
      errorM "( expected" (← locationM)
      pure none
    else do
      let args? ← call_args_loop fuel []
      match args? with
      | none => pure none
      | some args => do
        let fin ← locationM
        pure (some (Node.callNode fn.value args fn.loc fin))
termination_by structural fuel => fuel

/-- The argument loop of `Parser::parse_call`. -/
def call_args_loop : Nat → List Node → ParseM (Option (List Node))
  | 0, _ => fun _ => POut.timeout
  | fuel + 1, acc => do
    let b ← ensure_token Kind.rparen
    if b then pure (some acc)
    else do
      let arg? ← parse_expression fuel
      match arg? with
      | none => pure none
      | some arg => do
        let c ← ensure_token Kind.comma
        let k ← peek_token 0
        if !c ∧ k ≠ Kind.rparen then do
          errorM "expected comma or bracket" (← locationM)
          pure none
        else call_args_loop fuel (acc ++ [arg])
termination_by structural fuel acc => fuel

/-- `Parser::parse_function`: keyword, return type, name, parameter list,
then the parameters are defined in a fresh scope enclosing the body
block. -/
def parse_function : Nat → ParseM (Option Function)
  | 0 => fun _ => POut.timeout
  | fuel + 1 => do
    let b ← ensure_token Kind.function_kw
    passert b
    let tp ← extract_token
    if !(isTypename tp.kind) then do
      errorM "type expected" tp.loc
      pure none
    else do
      let nm ← extract_token
      if nm.kind ≠ Kind.ident then do
        errorM "identifier expected" nm.loc
        pure none
      else do
        let bp ← ensure_token Kind.lparen
        if !bp then do
          errorM "( expected" (← locationM)
          pure none
        else do
          let params? ← fn_params_loop fuel []
          match params? with
          | none => pure none
          | some params => do
            let sign : Signature := ⟨token_to_type tp.kind, nm.value, params⟩
            push_scope
            defineParams sign.params tp.loc (← locationM)
            let body? ← parse_block fuel
            match body? with
            | none => pure none
            | some body => do
              pop_scope
              let fin ← locationM
              pure (some ⟨sign, body, tp.loc, fin⟩)
termination_by structural fuel => fuel

/-- The parameter loop of `Parser::parse_function`. -/
def fn_params_loop : Nat → List (Ty × String) → ParseM (Option (List (Ty × String)))
  | 0, _ => fun _ => POut.timeout
  | fuel + 1, acc => do
    let b ← ensure_token Kind.rparen
    if b then pure (some acc)
    else do
      let ptype ← extract_token
      if !(isTypename ptype.kind) then do
        errorM "typename or ) expected" ptype.loc
        pure none
      else do
        let pname ← extract_token
        if pname.kind ≠ Kind.ident then do
          errorM "identifier or ) expected" pname.loc
          pure none
        else do
          let acc2 := acc ++ [(token_to_type ptype.kind, pname.value)]
          let c ← ensure_token Kind.comma
          let k ← peek_token 0
          if !c ∧ k ≠ Kind.rparen then do
            errorM ", or ) expected" (← locationM)
            pure none
          else fn_params_loop fuel acc2
termination_by structural fuel acc => fuel

/-- `Parser::parse_while`. -/
def parse_while : Nat → ParseM (Option Node)
  | 0 => fun _ => POut.timeout
  | fuel + 1 => do
    let start ← locationM
    let b ← ensure_token Kind.while_kw
    passert b
    let bp ← ensure_token Kind.lparen
    if !bp then do
      errorM "( expected" (← locationM)
      pure none
    else do
      let expr? ← parse_expression fuel
      match expr? with
      | none => pure none
      | some expr => do
        let rp ← ensure_token Kind.rparen
        if !rp then do
          errorM ") expected" (← locationM)
          pure none
        else do
          let body? ← parse_block fuel
          match body? with
          | none => pure none
          | some body => do
            let fin ← locationM
            pure (some (Node.whileNode expr body start fin))
termination_by structural fuel => fuel

/-- `Parser::parse_for`: the loop variable is looked up only after the
range expression and the body were parsed; an unknown name is the
`"unknown variable"` error. -/
def parse_for : Nat → ParseM (Option Node)
  | 0 => fun _ => POut.timeout
  | fuel + 1 => do
    let start ← locationM
    let b ← ensure_token Kind.for_kw
    passert b
    let bp ← ensure_token Kind.lparen
    if !bp then do
      errorM "( expected" (← locationM)
      pure none
    else do
      let var ← extract_token
      if var.kind ≠ Kind.ident then do
        errorM "identifier expected" var.loc
        pure none
      else do
        let bin ← ensure_token Kind.in_kw
        if !bin then do
          errorM "in expected" (← locationM)
          pure none
        else do
          let expr? ← parse_expression fuel
          match expr? with
          | none => pure none
          | some expr => do
            let rp ← ensure_token Kind.rparen
            if !rp then do
              errorM ") expected" (← locationM)
              pure none
            else do
              let body? ← parse_block fuel
              match body? with
              | none => pure none
              | some body => do
                let v? ← lookupVarM var.value
                match v? with
                | none => do
                  errorM ("unknown variable" ++ var.value) var.loc
                  pure none
                | some v => do
                  let fin ← locationM
                  pure (some (Node.forNode v expr body start fin))
termination_by structural fuel => fuel

/-- `Parser::parse_if` (note the source's `"( expected"` message for the
missing closing parenthesis). -/
def parse_if : Nat → ParseM (Option Node)
  | 0 => fun _ => POut.timeout
  | fuel + 1 => do
    let start ← locationM
    let b ← ensure_token Kind.if_kw
    passert b
    let bp ← ensure_token Kind.lparen
    if !bp then do
      errorM "( expected" (← locationM)
      pure none
    else do
      let expr? ← parse_expression fuel
      match expr? with
      | none => pure none
      | some expr => do
        let rp ← ensure_token Kind.rparen
        if !rp then do
          errorM "( expected" (← locationM)
          pure none
        else do
          let then? ← parse_block fuel
          match then? with
          | none => pure none
          | some thenB => do
            let he ← ensure_token Kind.else_kw
            if he then do
              let else? ← parse_block fuel
              match else? with
              | none => pure none
              | some elseB => do
                let fin ← locationM
                pure (some (Node.ifNode expr thenB (some elseB) start fin))
            else do
              let fin ← locationM
              pure (some (Node.ifNode expr thenB none start fin))
termination_by structural fuel => fuel

/-- `Parser::parse_return`. -/
def parse_return : Nat → ParseM (Option Node)
  | 0 => fun _ => POut.timeout
  | fuel + 1 => do
    let loc ← locationM
    let b ← ensure_token Kind.return_kw
    passert b
    let k ← peek_token 0
    if k = Kind.semi then
      pure (some (Node.returnNode none loc loc))
    else do
      let ret? ← parse_expression fuel
      match ret? with
      | none => pure none
      | some ret => do
        let fin ← locationM
        pure (some (Node.returnNode (some ret) loc fin))
termination_by structural fuel => fuel

/-- `Parser::parse_print`.  The source asserts
`ensure_token(Token::return_kw)` here — a copy-paste slip from
`parse_return` — although the statement dispatched to it begins with the
`print` keyword. -/
def parse_print : Nat → ParseM (Option Node)
  | 0 => fun _ => POut.timeout
  | fuel + 1 => do
    let loc ← locationM
    let b ← ensure_token Kind.return_kw
    passert b
    let bp ← ensure_token Kind.lparen
    if !bp then do
      errorM "( expected" (← locationM)
      pure none
    else do
      let args? ← print_args_loop fuel []
      match args? with
      | none => pure none
      | some args => do
        let fin ← locationM
        pure (some (Node.printNode args loc fin))
termination_by structural fuel => fuel

/-- The argument loop of `Parser::parse_print`. -/
def print_args_loop : Nat → List Node → ParseM (Option (List Node))
  | 0, _ => fun _ => POut.timeout
  | fuel + 1, acc => do
    let b ← ensure_token Kind.rparen
    if b then pure (some acc)
    else do
      let expr? ← parse_expression fuel
      match expr? with
      | none => pure none
      | some expr => do
        let c ← ensure_token Kind.comma
        let k ← peek_token 0
        if !c ∧ k ≠ Kind.rparen then do
          errorM ", or ) expected" (← locationM)
          pure none
        else print_args_loop fuel (acc ++ [expr])
termination_by structural fuel acc => fuel

/-- `Parser::parse_declaration`: type keyword, name, `=`, initializer;
the variable is defined into the current scope only after the initializer
parsed, with no check against an existing same-scope definition.  A
missing `=` returns null without setting any diagnostic. -/
def parse_declaration : Nat → ParseM (Option Node)
  | 0 => fun _ => POut.timeout
  | fuel + 1 => do
    let t ← extract_token
    let type := token_to_type t.kind
    passert (type ≠ Ty.Invalid ∧ type ≠ Ty.Void : Bool)
    let name ← extract_token
    if name.kind ≠ Kind.ident then do
      errorM "identifier expected" name.loc
      pure none
    else do
      let v : Variable := ⟨type, name.value, name.loc, name.loc⟩
      let b ← ensure_token Kind.assign
      if !b then pure none
      else do
        let expr? ← parse_expression fuel
        match expr? with
        | none => pure none
        | some expr => do
          defineVarM v
          let fin ← locationM
          pure (some (Node.store v expr Kind.assign name.loc fin))
termination_by structural fuel => fuel

/-- `Parser::parse_expression` is `parse_binary` at the default minimum
precedence 1. -/
def parse_expression : Nat → ParseM (Option Node)
  | 0 => fun _ => POut.timeout
  | fuel + 1 => parse_binary fuel 1
termination_by structural fuel => fuel

/-- `Parser::parse_binary`: parse the left operand, then — unconditionally
— demand that the next token be an infix operator (`"operator expected"`
otherwise), then run the nested precedence loops. -/
def parse_binary : Nat → Nat → ParseM (Option Node)
  | 0, _ => fun _ => POut.timeout
  | fuel + 1, prev => do
    let left? ← parse_unary fuel
    match left? with
    | none => pure none
    | some left => do
      let k ← peek_token 0
      let prec := getPrecedence k
      if prec ≤ 0 then do
        errorM "operator expected" (← locationM)
        pure none
      else binary_outer_loop fuel prev prec left
termination_by structural fuel prev => fuel

/-- The outer `while (prec >= prev)` loop of `Parser::parse_binary`. -/
def binary_outer_loop : Nat → Nat → Nat → Node → ParseM (Option Node)
  | 0, _, _, _ => fun _ => POut.timeout
  | fuel + 1, prev, prec, left => do
    if prec ≥ prev then do
      let left2? ← binary_inner_loop fuel prec left
      match left2? with
      | none => pure none
      | some left2 => do
        let k ← peek_token 0
        binary_outer_loop fuel prev (getPrecedence k) left2
    else pure (some left)
termination_by structural fuel prev prec left => fuel

/-- The inner `while (get_precedence(peek) == prec)` loop of
`Parser::parse_binary`: consume the operator, parse the right side at the
default minimum precedence, fold into a left-nested `BinaryExprNode`. -/
def binary_inner_loop : Nat → Nat → Node → ParseM (Option Node)
  | 0, _, _ => fun _ => POut.timeout
  | fuel + 1, prec, left => do
    let k ← peek_token 0
    if getPrecedence k = prec then do
      let op ← extract_token
      let right? ← parse_binary fuel 1
      match right? with
      | none => pure none
      | some right =>
        binary_inner_loop fuel prec
          (Node.binaryExpr op.kind left right left.start right.finish)
    else pure (some left)
termination_by structural fuel prec left => fuel

/-- `Parser::parse_unary`: prefix operators, calls, variable loads,
literals, parenthesized sub-expressions, otherwise
`"unexpected token"`. -/
def parse_unary : Nat → ParseM (Option Node)
  | 0 => fun _ => POut.timeout
  | fuel + 1 => do
    let k ← peek_token 0
    if is_unary k then do
      let op ← extract_token
      let expr? ← parse_unary fuel
      match expr? with
      | none => pure none
      | some expr => pure (some (Node.unaryExpr op.kind expr op.loc expr.finish))
    else do
      let k1 ← peek_token 1
      if k = Kind.ident ∧ k1 = Kind.lparen then parse_call fuel
      else if k = Kind.ident then do
        let name ← extract_token
        let v? ← lookupVarM name.value
        match v? with
        | none => do
          errorM "undefined variable" name.loc
          pure none
        | some v => pure (some (Node.load v name.loc name.loc))
      else if k = Kind.double_l then parse_double
      else if k = Kind.int_l then parse_int
      else if k = Kind.string_l then do
        let tok ← extract_token
        pure (some (Node.stringLit tok.value tok.loc tok.loc))
      else do
        let b ← ensure_token Kind.lparen
        if b then do
          let expr? ← parse_expression fuel
          match expr? with
          | none => pure none
          | some expr => do
            let rp ← ensure_token Kind.rparen
            if !rp then do
              errorM ") expected" (← locationM)
              pure none
            else pure (some expr)
        else do
          errorM "unexpected token" (← locationM)
          pure none
termination_by structural fuel => fuel


end

/-- Overall result of `Parser::parse(code, status)`. -/
inductive PResult where
  | crashed
  | timedOut
  | finished (program : Option Program) (status : Status)
  deriving Repr

/-- `Parser::parse(code, status)`: scan, return null on a scanner error,
otherwise push the root scope, remember it, run `parse_toplevel`, and
wrap whatever it produced — even a null top-level function — in a
`Program` that is returned unconditionally. -/
def Parser.parse (fuel : Nat) (code : String) : PResult :=
  let scanned := Scanner.scan code
  if scanned.2.code = StatusCode.ERROR then PResult.finished none scanned.2
  else
    let st1 : PState :=
      ⟨scanned.1, 0, scanned.2, some (Scope.mk [] [] none)⟩
    match parse_toplevel fuel st1 with
    | POut.crash => PResult.crashed
    | POut.timeout => PResult.timedOut
    | POut.ret top st2 =>
      PResult.finished (some ⟨top, st2.scope.map Scope.root⟩) st2.status

/-! ### Claim theorems -/

/-- C8: `TokenList::at(index)` is total and safe for every index: it
returns the stored token when `index` is below the number of scanned
tokens, the end-of-input sentinel exactly at that number, and the
distinct undefined-token sentinel for every larger index.  The embedding
is a total function over all of `Nat`, so no out-of-bounds access is
possible. -/
theorem c8_tokenlist_at_total (tokens : TokenList) (index : Nat) :
    (∀ h : index < List.length tokens,
        TokenList.at tokens index = List.get tokens ⟨index, h⟩)
    ∧ (index = List.length tokens → TokenList.at tokens index = eofToken)
    ∧ (index > List.length tokens → TokenList.at tokens index = undefToken)
    ∧ undefToken ≠ eofToken := by
  refine ⟨?_, ?_, ?_, by decide⟩
  · intro h
    simp only [TokenList.at, dif_pos h]
  · intro h
    simp only [TokenList.at]
    rw [dif_neg (by omega), if_pos h]
  · intro h
    simp only [TokenList.at]
    rw [dif_neg (by omega), if_neg (by omega)]

/-- Witness for C8 on the one-token list `[+]`: index 0 is the stored
token, index 1 the eof sentinel, index 2 the undef sentinel. -/
theorem c8_witness :
    TokenList.at [Token.ofKind Kind.add ⟨0, 0⟩] 0 = Token.ofKind Kind.add ⟨0, 0⟩
    ∧ TokenList.at [Token.ofKind Kind.add ⟨0, 0⟩] 1 = eofToken
    ∧ TokenList.at [Token.ofKind Kind.add ⟨0, 0⟩] 2 = undefToken := by
  refine ⟨?_, ?_, ?_⟩
  · exact ((c8_tokenlist_at_total [Token.ofKind Kind.add ⟨0, 0⟩] 0).1 (by decide)).trans rfl
  · exact (c8_tokenlist_at_total [Token.ofKind Kind.add ⟨0, 0⟩] 1).2.1 rfl
  · exact (c8_tokenlist_at_total [Token.ofKind Kind.add ⟨0, 0⟩] 2).2.2.1 (by decide)

theorem mapFind_mapInsert_self {α : Type} (m : List (String × α)) (name : String) (v : α) :
    mapFind (mapInsert m name v) name = some v := by
  induction m with
  | nil => simp [mapInsert, mapFind, List.find?]
  | cons p rest ih =>
    simp only [mapInsert]
    split
    · rename_i h
      simp [mapFind, List.find?, h]
    · rename_i h
      simp only [Bool.not_eq_true] at h
      simp only [mapFind, List.find?] at ih ⊢
      simp [h]
      simpa using ih

theorem scope_define_lookup_self (s : Scope) (v : Variable) :
    (s.define_variable v).lookup_variable v.name = some v := by
  match s with
  | Scope.top vars funs =>
    simp [Scope.define_variable, Scope.lookup_variable, mapFind_mapInsert_self]
  | Scope.child vars funs ow =>
    simp [Scope.define_variable, Scope.lookup_variable, mapFind_mapInsert_self]

/-- Counterexample for C5: defining `x` twice in the same scope does not
fail — the second definition replaces the first in this scope's own map,
and no error signal exists (`define_variable` returns nothing). -/
theorem c5_counterexample :
    (((Scope.mk [] [] none).define_variable ⟨Ty.Int, "x", ⟨1, 1⟩, ⟨1, 1⟩⟩).define_variable
        ⟨Ty.Double, "x", ⟨2, 2⟩, ⟨2, 2⟩⟩).varsMap
      = [("x", ⟨Ty.Double, "x", ⟨2, 2⟩, ⟨2, 2⟩⟩)]
    ∧ (((Scope.mk [] [] none).define_variable ⟨Ty.Int, "x", ⟨1, 1⟩, ⟨1, 1⟩⟩).define_variable
        ⟨Ty.Double, "x", ⟨2, 2⟩, ⟨2, 2⟩⟩).lookup_variable "x"
      = some ⟨Ty.Double, "x", ⟨2, 2⟩, ⟨2, 2⟩⟩
    ∧ (⟨Ty.Double, "x", ⟨2, 2⟩, ⟨2, 2⟩⟩ : Variable) ≠ ⟨Ty.Int, "x", ⟨1, 1⟩, ⟨1, 1⟩⟩ :=
  ⟨rfl, rfl, by decide⟩

/-- C5 as amended: `define_variable` inserts unconditionally through
`std::map::operator[]`: a same-scope duplicate replaces the previous
definition and no failure is reported; shadowing an ancestor's definition
is permitted because lookup is scope-local-first (the defined variable is
always what the defining scope resolves). -/
theorem c5_amended :
    (∀ (s : Scope) (v : Variable),
        (s.define_variable v).lookup_variable v.name = some v)
    ∧ (∀ (s : Scope) (v w : Variable), w.name = v.name →
        ((s.define_variable v).define_variable w).lookup_variable v.name = some w)
    ∧ (∀ (vars : List (String × Variable)) (funs : List (String × Function))
        (ow : Option Scope) (v : Variable),
        ((Scope.mk vars funs ow).define_variable v).varsMap = mapInsert vars v.name v) := by
  refine ⟨scope_define_lookup_self, ?_, ?_⟩
  · intro s v w h
    rw [← h]
    exact scope_define_lookup_self _ w
  · intro vars funs ow v
    cases ow <;> rfl

/-- Witness for C5's amended statement: redefining `x` (shadow-free, same
scope) resolves to the second definition. -/
theorem c5_witness :
    (((Scope.mk [] [] none).define_variable ⟨Ty.Int, "x", ⟨1, 1⟩, ⟨1, 1⟩⟩).define_variable
        ⟨Ty.Double, "x", ⟨2, 2⟩, ⟨2, 2⟩⟩).lookup_variable "x"
      = some ⟨Ty.Double, "x", ⟨2, 2⟩, ⟨2, 2⟩⟩ :=
  c5_amended.2.1 (Scope.mk [] [] none) ⟨Ty.Int, "x", ⟨1, 1⟩, ⟨1, 1⟩⟩
    ⟨Ty.Double, "x", ⟨2, 2⟩, ⟨2, 2⟩⟩ rfl

/-- C9: every identifier-shaped lexeme whose text equals one of the ten
keyword strings of `FOR_KEYWORDS` is tokenized by `scan_ident` with the
keyword kind — a kind inside the `is_keyword` range and never `ident` —
so such a name cannot reach the parser as a variable or function name. -/
theorem c9_keywords_reserved (input : List Char) (l o : Nat) :
    (scanIdent input l o).1.value ∈ keywordTable.map (fun p => p.2) →
    isKeyword (scanIdent input l o).1.kind = true
    ∧ (scanIdent input l o).1.kind ≠ Kind.ident
    ∧ (scanIdent input l o).1.kind = getTokenKind ((scanIdent input l o).1.value) := by
  have key : ∀ v ∈ keywordTable.map (fun p => p.2),
      isKeyword (if getTokenKind v = Kind.undef then Kind.ident else getTokenKind v) = true
      ∧ (if getTokenKind v = Kind.undef then Kind.ident else getTokenKind v) ≠ Kind.ident
      ∧ (if getTokenKind v = Kind.undef then Kind.ident else getTokenKind v)
          = getTokenKind v := by decide
  exact fun h => key _ h

/-- Witness for C9: scanning the lexeme `for` yields the `for_kw` keyword
token, not an identifier. -/
theorem c9_witness :
    isKeyword (scanIdent "for".toList 0 0).1.kind = true
    ∧ (scanIdent "for".toList 0 0).1.kind ≠ Kind.ident
    ∧ (scanIdent "for".toList 0 0).1.kind
        = getTokenKind ((scanIdent "for".toList 0 0).1.value) :=
  c9_keywords_reserved "for".toList 0 0 (by decide)

theorem findSome?_cons {α β : Type} (f : α → Option β) (a : α) (l : List α) :
    List.findSome? f (a :: l)
      = match f a with
        | some b => some b
        | none => List.findSome? f l := rfl

theorem findSome?_eq_none_iff {α β : Type} (f : α → Option β) (l : List α) :
    List.findSome? f l = none ↔ ∀ a ∈ l, f a = none := by
  induction l with
  | nil => simp [List.findSome?]
  | cons a l ih =>
    rw [findSome?_cons]
    cases h : f a with
    | some b => simp [h]
    | none => simp [h, ih]

/-- The spec's description of lookup (§4.1), stated in its own words: the
nearest definition visible from this scope is the first hit walking the
chain from the scope itself towards the root. -/
def nearestVisibleVar (s : Scope) (name : String) : Option Variable :=
  s.chain.findSome? fun sc => mapFind sc.varsMap name

/-- The function-table analogue of `nearestVisibleVar`. -/
def nearestVisibleFun (s : Scope) (name : String) : Option Function :=
  s.chain.findSome? fun sc => mapFind sc.funsMap name

theorem lookup_variable_eq_nearest (s : Scope) (name : String) :
    s.lookup_variable name = nearestVisibleVar s name := by
  induction s with
  | top vars funs =>
    rw [nearestVisibleVar, Scope.chain, findSome?_cons]
    cases h : mapFind vars name <;>
      simp [Scope.lookup_variable, Scope.varsMap, h, List.findSome?]
  | child vars funs ow ih =>
    rw [nearestVisibleVar, Scope.chain, findSome?_cons]
    cases h : mapFind vars name <;>
      simp [Scope.lookup_variable, Scope.varsMap, h, ih, nearestVisibleVar]

theorem lookup_function_eq_nearest (s : Scope) (name : String) :
    s.lookup_function name = nearestVisibleFun s name := by
  induction s with
  | top vars funs =>
    rw [nearestVisibleFun, Scope.chain, findSome?_cons]
    cases h : mapFind funs name <;>
      simp [Scope.lookup_function, Scope.funsMap, h, List.findSome?]
  | child vars funs ow ih =>
    rw [nearestVisibleFun, Scope.chain, findSome?_cons]
    cases h : mapFind funs name <;>
      simp [Scope.lookup_function, Scope.funsMap, h, ih, nearestVisibleFun]

/-- C7: `lookup_variable` and `lookup_function` return the nearest visible
definition — the scope's own map first, then each scope along the owner
chain in order (nothing skipped; the chain contains only ancestors, so no
sibling or descendant is searched) — and report not-found exactly when
every scope up to the root misses; consequently a name defined anywhere
along the chain is resolvable from the innermost scope. -/
theorem c7_lookup_nearest (s : Scope) (name : String) :
    s.lookup_variable name = nearestVisibleVar s name
    ∧ s.lookup_function name = nearestVisibleFun s name
    ∧ (s.lookup_variable name = none ↔ ∀ sc ∈ s.chain, mapFind sc.varsMap name = none)
    ∧ (s.lookup_function name = none ↔ ∀ sc ∈ s.chain, mapFind sc.funsMap name = none)
    ∧ (∀ sc ∈ s.chain, ∀ v : Variable, mapFind sc.varsMap name = some v →
        s.lookup_variable name ≠ none) := by
  refine ⟨lookup_variable_eq_nearest s name, lookup_function_eq_nearest s name, ?_, ?_, ?_⟩
  · rw [lookup_variable_eq_nearest s name, nearestVisibleVar, findSome?_eq_none_iff]
  · rw [lookup_function_eq_nearest s name, nearestVisibleFun, findSome?_eq_none_iff]
  · intro sc hsc v hv hnone
    rw [lookup_variable_eq_nearest s name, nearestVisibleVar,
      findSome?_eq_none_iff] at hnone
    exact absurd hv (by rw [hnone sc hsc]; simp)

/-- Witness for C7: `x` defined two scopes up resolves from the innermost
scope of a three-deep chain with no local redeclaration. -/
theorem c7_witness :
    (Scope.child [] [] (Scope.child [] []
        (Scope.top [("x", ⟨Ty.Int, "x", ⟨0, 0⟩, ⟨0, 0⟩⟩)] []))).lookup_variable "x" ≠ none
    ∧ (Scope.child [] [] (Scope.child [] []
        (Scope.top [("x", ⟨Ty.Int, "x", ⟨0, 0⟩, ⟨0, 0⟩⟩)] []))).lookup_variable "x"
      = some ⟨Ty.Int, "x", ⟨0, 0⟩, ⟨0, 0⟩⟩ := by
  refine ⟨?_, rfl⟩
  exact (c7_lookup_nearest (Scope.child [] [] (Scope.child [] []
      (Scope.top [("x", ⟨Ty.Int, "x", ⟨0, 0⟩, ⟨0, 0⟩⟩)] []))) "x").2.2.2.2
    (Scope.top [("x", ⟨Ty.Int, "x", ⟨0, 0⟩, ⟨0, 0⟩⟩)] [])
    (by simp [Scope.chain]) ⟨Ty.Int, "x", ⟨0, 0⟩, ⟨0, 0⟩⟩ rfl

theorem dropCommentGo_append (cs rest : List Char) (l o : Nat)
    (hnl : '\n' ∉ cs) (hz : '\x00' ∉ cs) :
    dropCommentGo (cs ++ '\n' :: rest) l o = (rest, l + 1, 0) := by
  match cs, hnl, hz with
  | [], _, _ => simp [dropCommentGo, advance]
  | ch :: cs, hnl, hz =>
    have h1 : ch ≠ '\x00' := fun h => hz (h ▸ List.mem_cons_self ch cs)
    have h2 : ch ≠ '\n' := fun h => hnl (h ▸ List.mem_cons_self ch cs)
    simp only [List.cons_append, dropCommentGo, if_neg h1, if_neg h2]
    rw [show advance ch l o = (l, o + 1) by simp [advance, h2]]
    exact dropCommentGo_append cs rest l (o + 1)
      (fun h => hnl (List.mem_cons_of_mem ch h))
      (fun h => hz (List.mem_cons_of_mem ch h))

theorem dropCommentGo_all (cs : List Char) (l o : Nat)
    (hnl : '\n' ∉ cs) (hz : '\x00' ∉ cs) :
    (dropCommentGo cs l o).1 = [] := by
  match cs, hnl, hz with
  | [], _, _ => simp [dropCommentGo]
  | ch :: cs, hnl, hz =>
    have h1 : ch ≠ '\x00' := fun h => hz (h ▸ List.mem_cons_self ch cs)
    have h2 : ch ≠ '\n' := fun h => hnl (h ▸ List.mem_cons_self ch cs)
    simp only [dropCommentGo, if_neg h1, if_neg h2]
    exact dropCommentGo_all cs _ _
      (fun h => hnl (List.mem_cons_of_mem ch h))
      (fun h => hz (List.mem_cons_of_mem ch h))

theorem skipComment_comment (c rest : List Char) (l o : Nat)
    (hnl : '\n' ∉ c) (hz : '\x00' ∉ c) :
    skipComment ('/' :: '/' :: c ++ '\n' :: rest) l o = (rest, l + 1, 0) := by
  rw [skipComment, if_pos (by constructor <;> rfl)]
  exact dropCommentGo_append ('/' :: '/' :: c) rest l o (by simp [hnl]) (by simp [hz])

theorem scan_comment_equiv (fuel : Nat) (c rest : List Char) (l o : Nat) (acc : List Token)
    (hnl : '\n' ∉ c) (hz : '\x00' ∉ c)
    (hhd : ∀ x, rest.head? = some x → isWhitespace x = false ∧ x ≠ '/') :
    scanImpl fuel ('/' :: '/' :: c ++ '\n' :: rest) l o acc
      = scanImpl fuel ('\n' :: rest) l o acc := by
  match fuel with
  | 0 => rfl
  | fuel + 1 =>
    have hL : skipComment (skipWs ('/' :: '/' :: c ++ '\n' :: rest) l o).1
        (skipWs ('/' :: '/' :: c ++ '\n' :: rest) l o).2.1
        (skipWs ('/' :: '/' :: c ++ '\n' :: rest) l o).2.2 = (rest, l + 1, 0) := by
      have hws : skipWs ('/' :: '/' :: c ++ '\n' :: rest) l o
          = ('/' :: '/' :: c ++ '\n' :: rest, l, o) := by
        simp only [List.cons_append, skipWs]
        rw [if_neg (by decide)]
        rfl
      rw [hws]
      exact skipComment_comment c rest l o hnl hz
    have hR : skipComment (skipWs ('\n' :: rest) l o).1
        (skipWs ('\n' :: rest) l o).2.1
        (skipWs ('\n' :: rest) l o).2.2 = (rest, l + 1, 0) := by
      have hws : skipWs ('\n' :: rest) l o = (rest, l + 1, 0) := by
        simp only [skipWs]
        rw [if_pos (by decide)]
        show skipWs rest (advance '\n' l o).1 (advance '\n' l o).2 = (rest, l + 1, 0)
        rw [show advance '\n' l o = (l + 1, 0) from rfl]
        match rest, hhd with
        | [], _ => rfl
        | x :: xs, hhd =>
          have := (hhd x rfl).1
          simp only [skipWs]
          rw [if_neg (by simp [this])]
      rw [hws]
      show skipComment rest (l + 1) 0 = (rest, l + 1, 0)
      match rest, hhd with
      | [], _ => rfl
      | x :: xs, hhd =>
        have := (hhd x rfl).2
        rw [skipComment, if_neg (by simp [peekCh, this])]
    simp only [scanImpl]
    rw [if_neg (show ¬peekCh ('/' :: '/' :: c ++ '\n' :: rest) = '\x00' from
          fun h => by simp [peekCh] at h),
        if_neg (show ¬peekCh ('\n' :: rest) = '\x00' from
          fun h => by simp [peekCh] at h),
        hL, hR]

theorem scan_comment_to_eof (fuel : Nat) (c : List Char) (l o : Nat) (acc : List Token)
    (hnl : '\n' ∉ c) (hz : '\x00' ∉ c) :
    scanImpl (fuel + 1) ('/' :: '/' :: c) l o acc = some (acc, Status.default) := by
  have hws : skipWs ('/' :: '/' :: c) l o = ('/' :: '/' :: c, l, o) := by
    simp only [skipWs]
    rw [if_neg (by decide)]
  have hall : (skipComment (skipWs ('/' :: '/' :: c) l o).1
      (skipWs ('/' :: '/' :: c) l o).2.1 (skipWs ('/' :: '/' :: c) l o).2.2).1 = [] := by
    rw [hws]
    show (skipComment ('/' :: '/' :: c) l o).1 = []
    rw [skipComment, if_pos (by constructor <;> rfl)]
    exact dropCommentGo_all ('/' :: '/' :: c) l o (by simp [hnl]) (by simp [hz])
  simp only [scanImpl]
  rw [if_neg (show ¬peekCh ('/' :: '/' :: c) = '\x00' from fun h => by simp [peekCh] at h)]
  rw [hall]

/-- Counterexample for C10: the source `//a\n x` does not scan to the same
token list as the same source with the comment text removed (`\n x`): the
whitespace-skipping of the iteration that consumed the comment has already
run, so the space after the comment's newline falls through to the token
table, matches nothing, and scanning fails with "undefined token" — while
the comment-free source scans to the single identifier `x`. -/
theorem c10_counterexample :
    (Scanner.scan "//a\n x").2.code = StatusCode.ERROR
    ∧ (Scanner.scan "//a\n x").2.message = "undefined token"
    ∧ (Scanner.scan "//a\n x").1 = []
    ∧ (Scanner.scan "\n x").2.code = StatusCode.SUCCESS
    ∧ (Scanner.scan "\n x").1.map (fun t => (t.kind, t.value)) = [(Kind.ident, "x")] :=
  ⟨rfl, rfl, rfl, rfl, rfl⟩

/-- C10 as amended: when the scanner reaches `//` at the head of its
remaining input, `skip_comment` skips every character up to and including
the next newline (or everything to end of input) and emits no token for
the comment; scanning the comment-plus-newline followed by `rest` is, for
every iteration budget, identical to scanning just the newline followed by
`rest`, PROVIDED `rest` does not begin with whitespace or `/` — the
source-level "same token list as with the comment removed" equivalence
holds only under that proviso (see the counterexample). -/
theorem c10_amended :
    (∀ (c rest : List Char) (l o : Nat), '\n' ∉ c → '\x00' ∉ c →
        skipComment ('/' :: '/' :: c ++ '\n' :: rest) l o = (rest, l + 1, 0))
    ∧ (∀ (fuel : Nat) (c rest : List Char) (l o : Nat) (acc : List Token),
        '\n' ∉ c → '\x00' ∉ c →
        (∀ x, rest.head? = some x → isWhitespace x = false ∧ x ≠ '/') →
        scanImpl fuel ('/' :: '/' :: c ++ '\n' :: rest) l o acc
          = scanImpl fuel ('\n' :: rest) l o acc)
    ∧ (∀ (fuel : Nat) (c : List Char) (l o : Nat) (acc : List Token),
        '\n' ∉ c → '\x00' ∉ c →
        scanImpl (fuel + 1) ('/' :: '/' :: c) l o acc = some (acc, Status.default)) :=
  ⟨fun c rest l o hnl hz => skipComment_comment c rest l o hnl hz,
   fun fuel c rest l o acc hnl hz hhd => scan_comment_equiv fuel c rest l o acc hnl hz hhd,
   fun fuel c l o acc hnl hz => scan_comment_to_eof fuel c l o acc hnl hz⟩

/-- Witness for C10's amended statement: `//a\nx` scans exactly like
`\nx`, and a comment running to end of input scans to no tokens. -/
theorem c10_witness :
    scanImpl 10 ('/' :: '/' :: ['a'] ++ '\n' :: ['x']) 0 0 []
      = scanImpl 10 ('\n' :: ['x']) 0 0 []
    ∧ scanImpl 10 ('/' :: '/' :: ['a', 'b']) 0 0 [] = some ([], Status.default) :=
  ⟨c10_amended.2.1 10 ['a'] ['x'] 0 0 [] (by decide) (by decide)
      (fun x hx => by cases hx; exact ⟨rfl, by decide⟩),
   c10_amended.2.2 9 ['a', 'b'] 0 0 [] (by decide) (by decide)⟩

/-! ### Parser resolution behaviour (C4) -/

theorem ParseM.bind_eq {α β : Type} (x : ParseM α) (f : α → ParseM β) (s : PState) :
    (x >>= f) s
      = match x s with
        | POut.ret a s' => f a s'
        | POut.crash => POut.crash
        | POut.timeout => POut.timeout := rfl

theorem ParseM.pure_eq {α : Type} (a : α) (s : PState) :
    (pure a : ParseM α) s = POut.ret a s := rfl

theorem parse_unary_load_resolved (fuel : Nat) (st : PState) (sc : Scope)
    (name : String) (lv : Location) (v : Variable)
    (hsc : st.scope = some sc)
    (htok : TokenList.at st.tokens st.pos = ⟨Kind.ident, name, lv⟩)
    (hnext : (TokenList.at st.tokens (st.pos + 1)).kind ≠ Kind.lparen)
    (hv : sc.lookup_variable name = some v) :
    parse_unary (fuel + 1) st
      = POut.ret (some (Node.load v lv lv)) { st with pos := st.pos + 1 } := by
  simp [parse_unary, ParseM.bind_eq, ParseM.pure_eq, peek_token, locationM,
    extract_token, ensure_token, errorM, is_okM, lookupVarM, passert, is_unary,
    htok, hsc, hv, hnext]

theorem parse_unary_load_unresolved (fuel : Nat) (st : PState) (sc : Scope)
    (name : String) (lv : Location)
    (hsc : st.scope = some sc)
    (htok : TokenList.at st.tokens st.pos = ⟨Kind.ident, name, lv⟩)
    (hnext : (TokenList.at st.tokens (st.pos + 1)).kind ≠ Kind.lparen)
    (hv : sc.lookup_variable name = none) :
    parse_unary (fuel + 1) st
      = POut.ret none { st with
          pos := st.pos + 1
          status := ⟨StatusCode.ERROR, "undefined variable", lv⟩ } := by
  simp [parse_unary, ParseM.bind_eq, ParseM.pure_eq, peek_token, locationM,
    extract_token, ensure_token, errorM, is_okM, lookupVarM, passert, is_unary,
    htok, hsc, hv, hnext]

theorem parse_assignment_unresolved (fuel : Nat) (st : PState) (sc : Scope)
    (name : String) (lv : Location)
    (hsc : st.scope = some sc)
    (htok : TokenList.at st.tokens st.pos = ⟨Kind.ident, name, lv⟩)
    (hv : sc.lookup_variable name = none) :
    parse_assignment (fuel + 1) st
      = POut.ret none { st with
          pos := st.pos + 1
          status := ⟨StatusCode.ERROR, "unknown variable " ++ name, lv⟩ } := by
  simp [parse_assignment, ParseM.bind_eq, ParseM.pure_eq, extract_token,
    errorM, lookupVarM, passert, htok, hsc, hv]

theorem parse_call_no_resolution (fuel : Nat) (st : PState)
    (name : String) (lv : Location)
    (htok : TokenList.at st.tokens st.pos = ⟨Kind.ident, name, lv⟩)
    (h1 : (TokenList.at st.tokens (st.pos + 1)).kind = Kind.lparen)
    (h2 : (TokenList.at st.tokens (st.pos + 2)).kind = Kind.rparen) :
    parse_call (fuel + 2) st
      = POut.ret (some (Node.callNode name []
          lv (TokenList.at st.tokens (st.pos + 3)).loc))
        { st with pos := st.pos + 3 } := by
  simp [parse_call, call_args_loop, ParseM.bind_eq, ParseM.pure_eq, extract_token,
    ensure_token, errorM, locationM, passert, htok, h1, h2]

theorem parse_assignment_inv (fuel : Nat) (st : PState) (nd : Node) (st' : PState)
    (h : parse_assignment (fuel + 1) st = POut.ret (some nd) st') :
    ∃ (v : Variable) (e : Node) (k : Kind) (s f : Location),
      nd = Node.store v e k s f
      ∧ ∃ sc, st.scope = some sc
          ∧ sc.lookup_variable ((TokenList.at st.tokens st.pos).value) = some v := by
  by_cases hk : (TokenList.at st.tokens st.pos).kind = Kind.ident
  case neg =>
    simp [parse_assignment, ParseM.bind_eq, ParseM.pure_eq, extract_token,
      lookupVarM, errorM, passert, hk] at h
  case pos =>
    match hscope : st.scope with
    | none =>
      simp [parse_assignment, ParseM.bind_eq, ParseM.pure_eq, extract_token,
        lookupVarM, errorM, passert, hk, hscope] at h
    | some sc =>
      match hlk : sc.lookup_variable ((TokenList.at st.tokens st.pos).value) with
      | none =>
        simp [parse_assignment, ParseM.bind_eq, ParseM.pure_eq, extract_token,
          lookupVarM, errorM, passert, hk, hscope, hlk] at h
      | some v =>
        by_cases hka : isAssignment ((TokenList.at st.tokens (st.pos + 1)).kind) = true
        case neg =>
          simp [parse_assignment, ParseM.bind_eq, ParseM.pure_eq, extract_token,
            lookupVarM, errorM, passert, hk, hscope, hlk, hka] at h
        case pos =>
          simp only [parse_assignment, ParseM.bind_eq, ParseM.pure_eq, extract_token,
            lookupVarM, errorM, passert, hk, hscope, hlk, hka, decide_eq_true_eq,
            if_true, if_pos] at h
          split at h
          · split at h
            · simp [ParseM.pure_eq] at h
            · rename_i e hpe
              simp only [ParseM.pure_eq, POut.ret.injEq, Option.some.injEq] at h
              exact ⟨v, e, _, _, _, h.1.symm, sc, rfl, hlk⟩
          · exact POut.noConfusion h
          · exact POut.noConfusion h

theorem parse_for_inv (fuel : Nat) (st : PState) (nd : Node) (st' : PState)
    (h : parse_for (fuel + 1) st = POut.ret (some nd) st') :
    ∃ (v : Variable) (e b : Node) (s f : Location),
      nd = Node.forNode v e b s f
      ∧ ∃ sc, st'.scope = some sc
          ∧ sc.lookup_variable ((TokenList.at st.tokens (st.pos + 2)).value) = some v := by
  by_cases hfor : (TokenList.at st.tokens st.pos).kind = Kind.for_kw
  case neg =>
    simp [parse_for, ParseM.bind_eq, ParseM.pure_eq, extract_token, ensure_token,
      locationM, errorM, lookupVarM, passert, hfor] at h
  case pos =>
    by_cases hlp : (TokenList.at st.tokens (st.pos + 1)).kind = Kind.lparen
    case neg =>
      simp [parse_for, ParseM.bind_eq, ParseM.pure_eq, extract_token, ensure_token,
        locationM, errorM, lookupVarM, passert, hfor, hlp] at h
    case pos =>
      by_cases hid : (TokenList.at st.tokens (st.pos + 2)).kind = Kind.ident
      case neg =>
        simp [parse_for, ParseM.bind_eq, ParseM.pure_eq, extract_token, ensure_token,
          locationM, errorM, lookupVarM, passert, hfor, hlp, hid] at h
      case pos =>
        by_cases hin : (TokenList.at st.tokens (st.pos + 3)).kind = Kind.in_kw
        case neg =>
          simp [parse_for, ParseM.bind_eq, ParseM.pure_eq, extract_token, ensure_token,
            locationM, errorM, lookupVarM, passert, hfor, hlp, hid, hin] at h
        case pos =>
          simp [parse_for, ParseM.bind_eq, ParseM.pure_eq, extract_token,
            ensure_token, locationM, errorM, lookupVarM, passert, hfor, hlp, hid, hin] at h
          repeat' first
            | exact POut.noConfusion h
            | (simp [ParseM.bind_eq, ParseM.pure_eq, ensure_token, locationM,
                errorM, lookupVarM] at h)
            | split at h
          rename_i vq v0 hlk0
          obtain ⟨hnd, hst⟩ := h
          split at hlk0
          · rename_i sc hsc2
            simp only [POut.ret.injEq] at hlk0
            obtain ⟨hl1, hl2⟩ := hlk0
            subst hst
            subst hl2
            exact ⟨v0, _, _, _, _, hnd.symm, sc, hsc2, hl1⟩
          · exact POut.noConfusion hlk0

/-- Counterexample for C4: `parse_call` constructs a `CallNode` for callee
`f` without consulting any function table and without raising an error,
in a state whose scope chain defines no function at all — an unresolvable
callee name is represented in the tree, and the status stays SUCCESS. -/
theorem c4_counterexample :
    parse_call 10
        ⟨[⟨Kind.ident, "f", ⟨0, 0⟩⟩, Token.ofKind Kind.lparen ⟨0, 1⟩,
          Token.ofKind Kind.rparen ⟨0, 2⟩], 0, Status.default, some (Scope.top [] [])⟩
      = POut.ret (some (Node.callNode "f" [] ⟨0, 0⟩ Location.default))
        ⟨[⟨Kind.ident, "f", ⟨0, 0⟩⟩, Token.ofKind Kind.lparen ⟨0, 1⟩,
          Token.ofKind Kind.rparen ⟨0, 2⟩], 3, Status.default, some (Scope.top [] [])⟩
    ∧ (Scope.top [] []).lookup_function "f" = none :=
  ⟨rfl, rfl⟩

/-- C4 as amended: variable references resolve at construction time, but
calls do not.  In detail: `parse_unary` builds a `Load` only from a
successful `lookup_variable` of the identifier and reports the
`"undefined variable"` ERROR otherwise; `parse_assignment` reports
`"unknown variable"` when its target does not resolve, and any `Store` it
returns targets exactly the variable found by `lookup_variable` on the
target name; any `For` node returned by `parse_for` carries the variable
found by a successful `lookup_variable` (performed only after the range
expression and body were parsed) on the loop-variable token; but a `Call`
is never resolved: `parse_call` records only the callee name, consults no
function table, and an unresolvable callee causes no error. -/
theorem c4_amended :
    (∀ (fuel : Nat) (st : PState) (sc : Scope) (name : String) (lv : Location)
        (v : Variable), st.scope = some sc →
        TokenList.at st.tokens st.pos = ⟨Kind.ident, name, lv⟩ →
        (TokenList.at st.tokens (st.pos + 1)).kind ≠ Kind.lparen →
        sc.lookup_variable name = some v →
        parse_unary (fuel + 1) st
          = POut.ret (some (Node.load v lv lv)) { st with pos := st.pos + 1 })
    ∧ (∀ (fuel : Nat) (st : PState) (sc : Scope) (name : String) (lv : Location),
        st.scope = some sc →
        TokenList.at st.tokens st.pos = ⟨Kind.ident, name, lv⟩ →
        (TokenList.at st.tokens (st.pos + 1)).kind ≠ Kind.lparen →
        sc.lookup_variable name = none →
        parse_unary (fuel + 1) st
          = POut.ret none { st with
              pos := st.pos + 1
              status := ⟨StatusCode.ERROR, "undefined variable", lv⟩ })
    ∧ (∀ (fuel : Nat) (st : PState) (sc : Scope) (name : String) (lv : Location),
        st.scope = some sc →
        TokenList.at st.tokens st.pos = ⟨Kind.ident, name, lv⟩ →
        sc.lookup_variable name = none →
        parse_assignment (fuel + 1) st
          = POut.ret none { st with
              pos := st.pos + 1
              status := ⟨StatusCode.ERROR, "unknown variable " ++ name, lv⟩ })
    ∧ (∀ (fuel : Nat) (st : PState) (nd : Node) (st' : PState),
        parse_assignment (fuel + 1) st = POut.ret (some nd) st' →
        ∃ (v : Variable) (e : Node) (k : Kind) (s f : Location),
          nd = Node.store v e k s f
          ∧ ∃ sc, st.scope = some sc
              ∧ sc.lookup_variable ((TokenList.at st.tokens st.pos).value) = some v)
    ∧ (∀ (fuel : Nat) (st : PState) (nd : Node) (st' : PState),
        parse_for (fuel + 1) st = POut.ret (some nd) st' →
        ∃ (v : Variable) (e b : Node) (s f : Location),
          nd = Node.forNode v e b s f
          ∧ ∃ sc, st'.scope = some sc
              ∧ sc.lookup_variable ((TokenList.at st.tokens (st.pos + 2)).value) = some v)
    ∧ (∀ (fuel : Nat) (st : PState) (name : String) (lv : Location),
        TokenList.at st.tokens st.pos = ⟨Kind.ident, name, lv⟩ →
        (TokenList.at st.tokens (st.pos + 1)).kind = Kind.lparen →
        (TokenList.at st.tokens (st.pos + 2)).kind = Kind.rparen →
        parse_call (fuel + 2) st
          = POut.ret (some (Node.callNode name []
              lv (TokenList.at st.tokens (st.pos + 3)).loc))
            { st with pos := st.pos + 3 }) :=
  ⟨fun fuel st sc name lv v hsc htok hnext hv =>
      parse_unary_load_resolved fuel st sc name lv v hsc htok hnext hv,
   fun fuel st sc name lv hsc htok hnext hv =>
      parse_unary_load_unresolved fuel st sc name lv hsc htok hnext hv,
   fun fuel st sc name lv hsc htok hv =>
      parse_assignment_unresolved fuel st sc name lv hsc htok hv,
   fun fuel st nd st' h => parse_assignment_inv fuel st nd st' h,
   fun fuel st nd st' h => parse_for_inv fuel st nd st' h,
   fun fuel st name lv htok h1 h2 => parse_call_no_resolution fuel st name lv htok h1 h2⟩

/-- Witness for C4's amended statement: a defined `x` loads via lookup,
and an undefined callee `f()` still parses into a `CallNode`. -/
theorem c4_witness :
    parse_unary 5
        ⟨[⟨Kind.ident, "x", ⟨0, 0⟩⟩], 0, Status.default,
          some (Scope.top [("x", ⟨Ty.Int, "x", ⟨0, 0⟩, ⟨0, 0⟩⟩)] [])⟩
      = POut.ret (some (Node.load ⟨Ty.Int, "x", ⟨0, 0⟩, ⟨0, 0⟩⟩ ⟨0, 0⟩ ⟨0, 0⟩))
        ⟨[⟨Kind.ident, "x", ⟨0, 0⟩⟩], 1, Status.default,
          some (Scope.top [("x", ⟨Ty.Int, "x", ⟨0, 0⟩, ⟨0, 0⟩⟩)] [])⟩
    ∧ parse_call 7
        ⟨[⟨Kind.ident, "f", ⟨0, 0⟩⟩, Token.ofKind Kind.lparen ⟨0, 1⟩,
          Token.ofKind Kind.rparen ⟨0, 2⟩], 0, Status.default, some (Scope.top [] [])⟩
      = POut.ret (some (Node.callNode "f" [] ⟨0, 0⟩ Location.default))
        ⟨[⟨Kind.ident, "f", ⟨0, 0⟩⟩, Token.ofKind Kind.lparen ⟨0, 1⟩,
          Token.ofKind Kind.rparen ⟨0, 2⟩], 3, Status.default, some (Scope.top [] [])⟩ :=
  ⟨c4_amended.1 4 _ _ "x" ⟨0, 0⟩ ⟨Ty.Int, "x", ⟨0, 0⟩, ⟨0, 0⟩⟩ rfl rfl (by decide) rfl,
   c4_amended.2.2.2.2.2 5 _ "f" ⟨0, 0⟩ rfl rfl rfl⟩

/-- C1 (code bug): on the source `)` the parse fails — the status carries
an ERROR with the `"unexpected token"` diagnostic at the token's location
— yet `Parser::parse` still returns a non-null `Program` (wrapping a null
top-level function): `parse` builds the `Program` unconditionally after
`parse_toplevel`, so a non-null Program is returned together with an
ERROR status, against the claimed "no partial Program on ERROR". -/
theorem c1_error_still_returns_program :
    Parser.parse 50 ")"
      = PResult.finished (some ⟨none, some (Scope.top [] [])⟩)
        ⟨StatusCode.ERROR, "unexpected token", ⟨0, 0⟩⟩ := rfl

/-- C2 (code bug): parsing `1+2*3` does not yield
`Add(IntLit 1, Mul(IntLit 2, IntLit 3))`; it fails with the
`"operator expected"` ERROR (at the end-of-input token, whose location is
the unreachable sentinel), because `parse_binary` unconditionally demands
an infix operator after every complete operand.  The Program wrapping a
null top-level function is again returned alongside the ERROR. -/
theorem c2_precedence_source_fails :
    Parser.parse 100 "1+2*3"
      = PResult.finished (some ⟨none, some (Scope.top [] [])⟩)
        ⟨StatusCode.ERROR, "operator expected", Location.default⟩ := rfl

/-- C3 (code bug): parsing `1+2-3` likewise fails with
`"operator expected"` instead of yielding
`Sub(Add(IntLit 1, IntLit 2), IntLit 3)`. -/
theorem c3_left_assoc_source_fails :
    Parser.parse 100 "1+2-3"
      = PResult.finished (some ⟨none, some (Scope.top [] [])⟩)
        ⟨StatusCode.ERROR, "operator expected", Location.default⟩ := rfl

/-- C6 (code bug): `parse_statement` does dispatch the `print` keyword to
`parse_print`, but `parse_print` begins with
`assert(ensure_token(Token::return_kw))` — a copy-paste slip from
`parse_return` — so on `print()` the assertion fails (the parser aborts;
with assertions disabled the `print` keyword would never be consumed and
the statement would fail with `"( expected"`).  No `Print` node is ever
produced. -/
theorem c6_print_statement_crashes :
    Parser.parse 100 "print()" = PResult.crashed := rfl

end VM
